import Mathlib

/-!
Verification of the FINPOP rhythm-game timing & judgment engine.

The definitions below are a shallow embedding of the JavaScript source:
`src/js/scorer.js` (judgment tiers, timing windows, score/combo state
machine) , the beatmap store (`BeatmapManager`: load, difficulty
transforms, judgable-note query, missed-note sweep) and the press
resolution in `src/js/game.js` (`Game.judgePress`).  JavaScript numbers
are modelled as rationals (`ℚ`), note ids and counters as naturals.
-/

namespace Finpop

/-! ## Judgment tiers and timing windows (src/js/scorer.js) -/

/-- The four judgment tiers, best to worst (`Judgment` object in the source). -/
inductive Judgment where
  | APPROVED
  | PENDING
  | DECLINED
  | CHARGEBACK
deriving DecidableEq, Repr

/-- Timing window set: four ascending absolute-deviation thresholds. -/
structure TimingWindows where
  approved : ℚ
  pending : ℚ
  declined : ℚ
  miss : ℚ
deriving DecidableEq, Repr

/-- `TIMING` constant from the source: `{APPROVED: 0.045, PENDING: 0.100,
DECLINED: 0.150, MISS: 0.200}` (seconds). -/
def TIMING : TimingWindows := ⟨45/1000, 100/1000, 150/1000, 200/1000⟩

/-- `SCORE_VALUES` table: base points per tier. -/
def SCORE_VALUES : Judgment → ℕ
  | .APPROVED => 300
  | .PENDING => 200
  | .DECLINED => 50
  | .CHARGEBACK => 0

/-- `Scorer.judge(timeDiff)`: classify a signed timing delta into a tier by
its absolute value, with inclusive boundaries on the better side. -/
def judge (timeDiff : ℚ) : Judgment :=
  if |timeDiff| ≤ TIMING.approved then .APPROVED
  else if |timeDiff| ≤ TIMING.pending then .PENDING
  else if |timeDiff| ≤ TIMING.declined then .DECLINED
  else .CHARGEBACK

/-! ## Score/combo state machine (src/js/scorer.js) -/

/-- Per-tier occurrence counters (the `counts` object, all four tiers always
present). -/
structure Counts where
  approved : ℕ
  pending : ℕ
  declined : ℕ
  chargeback : ℕ
deriving DecidableEq, Repr

/-- Read a tier's counter. -/
def Counts.get (c : Counts) : Judgment → ℕ
  | .APPROVED => c.approved
  | .PENDING => c.pending
  | .DECLINED => c.declined
  | .CHARGEBACK => c.chargeback

/-- `this.counts[judgment]++`. -/
def Counts.bump (c : Counts) : Judgment → Counts
  | .APPROVED => { c with approved := c.approved + 1 }
  | .PENDING => { c with pending := c.pending + 1 }
  | .DECLINED => { c with declined := c.declined + 1 }
  | .CHARGEBACK => { c with chargeback := c.chargeback + 1 }

/-- The `Scorer` mutable state. -/
structure Scorer where
  score : ℕ
  combo : ℕ
  maxCombo : ℕ
  multiplier : ℕ
  totalNotes : ℕ
  counts : Counts
  recentJudgment : Option Judgment
  recentJudgmentTime : ℚ
  volume : ℕ
deriving DecidableEq, Repr

/-- `Scorer.reset()` assigns every field a constant, so the post-reset state
is a single value (also the constructor's state). -/
def Scorer.reset : Scorer :=
  { score := 0, combo := 0, maxCombo := 0, multiplier := 1, totalNotes := 0
    counts := ⟨0, 0, 0, 0⟩, recentJudgment := none, recentJudgmentTime := 0
    volume := 0 }

/-- The record returned by `Scorer.addHit`. -/
structure HitResult where
  judgment : Judgment
  points : ℕ
  combo : ℕ
  multiplier : ℕ
deriving DecidableEq, Repr

/-- `Scorer.addHit(judgment, currentTime)`: bump the tier counter and total,
update combo / maxCombo / multiplier, then award
`SCORE_VALUES[judgment] * multiplier` points. -/
def Scorer.addHit (s : Scorer) (judgment : Judgment) (currentTime : ℚ) :
    Scorer × HitResult :=
  let s1 : Scorer :=
    { s with counts := s.counts.bump judgment, totalNotes := s.totalNotes + 1 }
  let s2 : Scorer :=
    if judgment = Judgment.CHARGEBACK then
      { s1 with combo := 0, multiplier := 1 }
    else
      let combo := s1.combo + 1
      let maxCombo := if combo > s1.maxCombo then combo else s1.maxCombo
      let multiplier :=
        if combo ≥ 100 then 8
        else if combo ≥ 50 then 4
        else if combo ≥ 25 then 3
        else if combo ≥ 10 then 2
        else 1
      { s1 with combo := combo, maxCombo := maxCombo, multiplier := multiplier }
  let points := SCORE_VALUES judgment * s2.multiplier
  let s3 : Scorer :=
    { s2 with score := s2.score + points
              volume := (s2.score + points) * 100
              recentJudgment := some judgment
              recentJudgmentTime := currentTime }
  (s3, ⟨judgment, points, s3.combo, s3.multiplier⟩)

/-- `Scorer.getGrade()`: letter grade from approved-rate and hit-rate bands;
`totalNotes === 0` short-circuits to `'D'`. -/
def Scorer.getGrade (s : Scorer) : String :=
  if s.totalNotes = 0 then "D"
  else
    let approvedRate : ℚ := (s.counts.approved : ℚ) / (s.totalNotes : ℚ)
    let hitRate : ℚ :=
      ((s.totalNotes : ℚ) - (s.counts.chargeback : ℚ)) / (s.totalNotes : ℚ)
    if approvedRate ≥ 95/100 ∧ hitRate ≥ 99/100 then "S"
    else if approvedRate ≥ 85/100 ∧ hitRate ≥ 95/100 then "A"
    else if approvedRate ≥ 70/100 ∧ hitRate ≥ 85/100 then "B"
    else if hitRate ≥ 70/100 then "C"
    else "D"

/-- `Scorer.getApprovalRate()`: hit-rate as a percentage, `0` when nothing
was judged. -/
def Scorer.getApprovalRate (s : Scorer) : ℚ :=
  if s.totalNotes = 0 then 0
  else ((s.totalNotes : ℚ) - (s.counts.chargeback : ℚ)) / (s.totalNotes : ℚ) * 100

/-- The `{level, color}` record returned by `Scorer.getRiskLevel`. -/
structure RiskLevel where
  level : String
  color : String
deriving DecidableEq, Repr

/-- `Scorer.getRiskLevel()`: chargeback-rate bands, rate `0` when
`totalNotes` is zero. -/
def Scorer.getRiskLevel (s : Scorer) : RiskLevel :=
  let chargebackRate : ℚ :=
    if s.totalNotes > 0 then (s.counts.chargeback : ℚ) / (s.totalNotes : ℚ) else 0
  if chargebackRate > 3/10 then ⟨"CRITICAL", "#ff0040"⟩
  else if chargebackRate > 15/100 then ⟨"HIGH", "#ff6600"⟩
  else if chargebackRate > 5/100 then ⟨"MEDIUM", "#ffcc00"⟩
  else ⟨"LOW", "#00ff88"⟩

/-! ## Beatmap store (`BeatmapManager`, second revision in the source) -/

/-- Note kinds: `'tap' | 'hold'`. -/
inductive NoteType where
  | tap
  | hold
deriving DecidableEq, Repr

/-- A canonical note as stored in `this.allNotes` by `load` (no mutable
flags). -/
structure CanonNote where
  id : ℕ
  time : ℚ
  lane : ℕ
  type : NoteType
  duration : ℚ
deriving DecidableEq, Repr

/-- An active note in `this.notes`: canonical data plus the mutable
`hit/missed/judged` flags. -/
structure Note where
  id : ℕ
  time : ℚ
  lane : ℕ
  type : NoteType
  duration : ℚ
  hit : Bool
  missed : Bool
  judged : Bool
deriving DecidableEq, Repr

/-- `{...n, hit: false, missed: false, judged: false}` (the copy in `load`,
no time shift). -/
def CanonNote.toNote (n : CanonNote) : Note :=
  ⟨n.id, n.time, n.lane, n.type, n.duration, false, false, false⟩

/-- `{...n, time: n.time + offset, hit: false, missed: false, judged: false}`
(the copy in `applyDifficulty`: the global offset is added here, once). -/
def CanonNote.withOffset (offset : ℚ) (n : CanonNote) : Note :=
  ⟨n.id, n.time + offset, n.lane, n.type, n.duration, false, false, false⟩

/-- A raw note descriptor from the beatmap JSON; `type` and `duration` are
optional (`n.type || 'tap'`, `n.duration || 0`). -/
structure RawNote where
  time : ℚ
  lane : ℕ
  type : Option NoteType
  duration : Option ℚ
deriving DecidableEq, Repr

/-- The parsed beatmap JSON object `{bpm, offset?, track?, notes}`. -/
structure RawBeatmap where
  bpm : Option ℚ
  offset : Option ℚ
  track : Option String
  notes : List RawNote
deriving DecidableEq, Repr

/-- A section label row (`{name, start, end}`; `end` is a Lean keyword, the
field is named `stop` here). -/
structure SongSection where
  name : String
  start : ℚ
  stop : ℚ
deriving DecidableEq, Repr

/-- The literal section table of `initSections`. -/
def initSections : List SongSection :=
  [⟨"INTRO", 0, 8⟩, ⟨"VERSE 1", 9, 23⟩, ⟨"CHORUS", 24, 39⟩,
   ⟨"VERSE 2", 40, 46⟩, ⟨"RAP BREAK", 46, 68⟩, ⟨"BRIDGE", 68, 75⟩,
   ⟨"CHORUS", 76, 105⟩, ⟨"OUTRO", 105, 119⟩, ⟨"FINAL CHORUS", 119, 136⟩]

/-- The `BeatmapManager` state. -/
structure BeatmapManager where
  allNotes : List CanonNote
  notes : List Note
  bpm : ℚ
  offset : ℚ
  trackName : String
  duration : ℚ
  sections : List SongSection
deriving DecidableEq, Repr

/-- The constructor's initial state. -/
def BeatmapManager.init : BeatmapManager :=
  { allNotes := [], notes := [], bpm := 128, offset := 0, trackName := ""
    duration := 0, sections := [] }

/-- `data.notes.map((n, i) => ({id: i, time: n.time, lane: n.lane,
type: n.type || 'tap', duration: n.duration || 0}))`, with the map index
made an explicit accumulator: ids are sequential in input order. -/
def loadNotes : ℕ → List RawNote → List CanonNote
  | _, [] => []
  | i, n :: rest =>
      ⟨i, n.time, n.lane, n.type.getD NoteType.tap, n.duration.getD 0⟩ ::
        loadNotes (i + 1) rest

/-- The duration rule shared by `load` and `applyDifficulty`
(`this.notes.length > 0 ? this.notes[this.notes.length - 1].time + margin
: 0`): last stored note's time plus the margin, `0` when empty. -/
def durationOf (margin : ℚ) (notes : List Note) : ℚ :=
  match notes.getLast? with
  | some n => n.time + margin
  | none => 0

/-- The success path of `BeatmapManager.load`: parse fields with JS falsy
defaults (`data.bpm || 134`, `data.offset || 0`, `data.track || 'unknown'`),
assign sequential ids in input order, copy to the active notes with cleared
flags, and set `duration` from the last stored note
(`this.notes[this.notes.length - 1].time + 2`, or `0` when empty).  The
note list is NOT sorted here.  The catch branch (fetch/parse failure) calls
`generateDefault` instead. -/
def BeatmapManager.load (m : BeatmapManager) (data : RawBeatmap) :
    BeatmapManager :=
  let bpm := match data.bpm with
    | some b => if b = 0 then 134 else b
    | none => 134
  let offset := data.offset.getD 0
  let trackName := match data.track with
    | some t => if t = "" then "unknown" else t
    | none => "unknown"
  let allNotes := loadNotes 0 data.notes
  let notes := allNotes.map CanonNote.toNote
  let duration := durationOf 2 notes
  { m with bpm := bpm, offset := offset, trackName := trackName,
           allNotes := allNotes, notes := notes, duration := duration,
           sections := initSections }

/-- The index-parity filter in `applyDifficulty('EASY')`:
`this.allNotes.filter((n, i) => i % 2 === 0)`. -/
def easyFilter (l : List CanonNote) : List CanonNote :=
  (l.enum.filter fun p => p.1 % 2 == 0).map Prod.snd

/-- The synthetic-note loop in `applyDifficulty('HARD')`: one extra tap per
adjacent pair whose gap lies strictly between 1.5 and 4 beats, at the
midpoint (`curr.time + gap / 2`), lane `(curr.lane + 2) % 4`, id
`10000 + i` where `i` is the loop index of the pair. -/
def hardExtras (beat : ℚ) : ℕ → List CanonNote → List CanonNote
  | i, curr :: next :: rest =>
      let gap := next.time - curr.time
      (if beat * (3/2) < gap ∧ gap < beat * 4 then
        [⟨10000 + i, curr.time + gap / 2, (curr.lane + 2) % 4, NoteType.tap, 0⟩]
      else []) ++ hardExtras beat (i + 1) (next :: rest)
  | _, [] => []
  | _, [_] => []

/-- The comparator `(a, b) => a.time - b.time` as a boolean `≤` test on
canonical notes (JS `Array.prototype.sort` is stable; `mergeSort` is the
matching stable sort). -/
def canonTimeLE (a b : CanonNote) : Bool := a.time ≤ b.time

/-- The same comparator on active notes (used by `generateDefault`). -/
def noteTimeLE (a b : Note) : Bool := a.time ≤ b.time

/-- `BeatmapManager.applyDifficulty(level)`: recompute `this.notes` from
`this.allNotes` (EASY: even indices; HARD: canonical plus synthetic extras,
re-sorted by time; anything else: identity copy), adding `this.offset` to
each time once, then recompute `duration` from the last stored note plus 2
(or 0 when empty). -/
def BeatmapManager.applyDifficulty (m : BeatmapManager) (level : String) :
    BeatmapManager :=
  let beat := 60 / m.bpm
  let notes :=
    if level = "EASY" then
      (easyFilter m.allNotes).map (CanonNote.withOffset m.offset)
    else if level = "HARD" then
      ((m.allNotes ++ hardExtras beat 0 m.allNotes).mergeSort canonTimeLE).map
        (CanonNote.withOffset m.offset)
    else
      m.allNotes.map (CanonNote.withOffset m.offset)
  let duration := durationOf 2 notes
  { m with notes := notes, duration := duration }

/-- `getJudgableNotes(currentTime, lane, window)`: unjudged notes on the
lane within the absolute-deviation window (inclusive). -/
def BeatmapManager.getJudgableNotes (m : BeatmapManager) (currentTime : ℚ)
    (lane : ℕ) (window : ℚ) : List Note :=
  m.notes.filter fun n =>
    n.lane == lane && !n.judged && decide (|n.time - currentTime| ≤ window)

/-- The sweep condition of `markMissedNotes`:
`!note.judged && !note.missed && (currentTime - note.time) > missWindow`. -/
def sweptP (currentTime missWindow : ℚ) (n : Note) : Bool :=
  !n.judged && !n.missed && decide (currentTime - n.time > missWindow)

/-- `note.missed = true; note.judged = true`. -/
def sweepMark (n : Note) : Note := { n with missed := true, judged := true }

/-- `markMissedNotes(currentTime, missWindow)`: walk the sequence front to
back, mark and collect every note satisfying the sweep condition.  Returns
the collected list and the updated sequence (the JS loop mutates the notes
in place; the sequence itself is neither shortened nor reordered). -/
def markMissedNotes (currentTime missWindow : ℚ) :
    List Note → List Note × List Note
  | [] => ([], [])
  | n :: rest =>
      let r := markMissedNotes currentTime missWindow rest
      if sweptP currentTime missWindow n then
        (sweepMark n :: r.1, sweepMark n :: r.2)
      else
        (r.1, n :: r.2)

/-! ### The generated fallback chart (`generateDefault`) -/

/-- One `addNote(time, lane, type, duration)` entry of `generateDefault`
before id assignment (`noteId++` assigns ids in push order). -/
structure GenNote where
  time : ℚ
  lane : ℕ
  type : NoteType
  duration : ℚ
deriving DecidableEq, Repr

/-- `addNote(time, lane)` with the default arguments `'tap', 0`. -/
def genN (time : ℚ) (lane : ℕ) : GenNote := ⟨time, lane, NoteType.tap, 0⟩

/-- `addNote(time, lane, 'hold', duration)`. -/
def genH (time : ℚ) (lane : ℕ) (duration : ℚ) : GenNote :=
  ⟨time, lane, NoteType.hold, duration⟩

/-- The full "Payments on Lock" chart pushed by `generateDefault`, in push
order, at 134 BPM (`beat = 60/134`, `bar = beat * 4`).  The `addPattern`
helper in the source is never called, so the chart is deterministic. -/
def generatedChart : List GenNote :=
  let beat : ℚ := 60 / 134
  let bar : ℚ := beat * 4
  -- INTRO (bars 0-7)
  [genN (1*bar + 0*beat) 0, genN (1*bar + 1*beat) 0, genN (1*bar + 2*beat) 0,
   genN (2*bar + 0*beat) 0, genN (2*bar + 2*beat) 2,
   genN (3*bar + 0*beat) 0, genN (3*bar + 2*beat) 3,
   genN (4*bar + 0*beat) 0, genN (4*bar + 1*beat) 1,
   genN (4*bar + 2*beat) 2, genN (4*bar + 3*beat) 3,
   genN (5*bar + 0*beat) 0, genN (5*bar + 2*beat) 2,
   genN (6*bar + 0*beat) 0, genN (6*bar + 1*beat) 1,
   genN (6*bar + 2*beat) 2, genN (6*bar + 3*beat) 3,
   genN (7*bar + 0*beat) 0, genN (7*bar + 1*beat) 2,
   genN (7*bar + 2*beat) 1, genN (7*bar + 3*beat) 3]
  -- VERSE 1 (bars 8-15)
  ++ ((List.range' 8 8).flatMap fun b =>
      let l1 := b % 4
      let l2 := (b + 2) % 4
      [genN ((b : ℚ)*bar + 0*beat) l1, genN ((b : ℚ)*bar + 2*beat) l2]
      ++ (if b % 2 = 0 then [genN ((b : ℚ)*bar + 3*beat) ((l1 + 1) % 4)] else []))
  -- VERSE 1 second half (bars 16-23)
  ++ ((List.range' 16 8).flatMap fun b =>
      let l1 := (b + 1) % 4
      let l2 := (b + 3) % 4
      [genN ((b : ℚ)*bar + 0*beat) l1, genN ((b : ℚ)*bar + 1*beat) l2,
       genN ((b : ℚ)*bar + 2*beat) l1]
      ++ (if b % 2 = 1 then [genN ((b : ℚ)*bar + 3*beat) ((l2 + 1) % 4)] else []))
  -- CHORUS (bars 24-31)
  ++ ((List.range' 24 8).flatMap fun b =>
      (if b % 4 = 0 then
        [genN ((b : ℚ)*bar + 0*beat) 0, genN ((b : ℚ)*bar + 0*beat) 3] else [])
      ++ [genN ((b : ℚ)*bar + 0*beat) (b % 4),
          genN ((b : ℚ)*bar + 1*beat) ((b + 1) % 4),
          genN ((b : ℚ)*bar + 2*beat) ((b + 2) % 4),
          genN ((b : ℚ)*bar + 3*beat) ((b + 3) % 4)]
      ++ (if b % 2 = 0 then [genN ((b : ℚ)*bar + (3/2)*beat) ((b + 2) % 4)] else []))
  -- CHORUS second half (bars 32-39)
  ++ ((List.range' 32 8).flatMap fun b =>
      [genN ((b : ℚ)*bar + 0*beat) 0, genN ((b : ℚ)*bar + (1/2)*beat) 1,
       genN ((b : ℚ)*bar + 1*beat) 2, genN ((b : ℚ)*bar + (3/2)*beat) 3,
       genN ((b : ℚ)*bar + 2*beat) (if b % 2 = 0 then 0 else 2),
       genN ((b : ℚ)*bar + (5/2)*beat) (if b % 2 = 0 then 1 else 3),
       genN ((b : ℚ)*bar + 3*beat) (b % 4)])
  -- VERSE 2 (bars 40-47)
  ++ ((List.range' 40 8).flatMap fun b =>
      [genN ((b : ℚ)*bar + 0*beat) (b % 4),
       genN ((b : ℚ)*bar + (3/2)*beat) ((b + 1) % 4),
       genN ((b : ℚ)*bar + 2*beat) ((b + 2) % 4),
       genN ((b : ℚ)*bar + (7/2)*beat) ((b + 3) % 4)])
  -- VERSE 2 second half (bars 48-55)
  ++ ((List.range' 48 8).flatMap fun b =>
      [genN ((b : ℚ)*bar + 0*beat) ((b + 1) % 4),
       genN ((b : ℚ)*bar + 1*beat) ((b + 2) % 4),
       genN ((b : ℚ)*bar + 2*beat) ((b + 3) % 4),
       genN ((b : ℚ)*bar + 3*beat) (b % 4)]
      ++ (if b % 3 = 0 then [genN ((b : ℚ)*bar + (1/2)*beat) ((b + 3) % 4)] else []))
  -- RAP BREAK (bars 56-63)
  ++ ((List.range' 56 8).flatMap fun b =>
      [genN ((b : ℚ)*bar + 0*beat) 1, genN ((b : ℚ)*bar + (1/2)*beat) 1,
       genN ((b : ℚ)*bar + 1*beat) 1, genN ((b : ℚ)*bar + 2*beat) ((b + 1) % 4),
       genN ((b : ℚ)*bar + (5/2)*beat) 1, genN ((b : ℚ)*bar + 3*beat) 1])
  -- RAP BREAK second half (bars 64-71)
  ++ ((List.range' 64 8).flatMap fun b =>
      [genN ((b : ℚ)*bar + 0*beat) 1, genN ((b : ℚ)*bar + (1/2)*beat) (b % 3),
       genN ((b : ℚ)*bar + 1*beat) 1, genN ((b : ℚ)*bar + (3/2)*beat) (b % 4),
       genN ((b : ℚ)*bar + 2*beat) 1, genN ((b : ℚ)*bar + (5/2)*beat) 3,
       genN ((b : ℚ)*bar + 3*beat) ((b + 2) % 4),
       genN ((b : ℚ)*bar + (7/2)*beat) 1])
  -- BRIDGE (bars 72-79)
  ++ [genH (72*bar + 0*beat) 0 (beat * 3), genH (73*bar + 0*beat) 2 (beat * 3),
      genH (74*bar + 0*beat) 1 (beat * 2), genH (74*bar + 2*beat) 3 (beat * 2),
      genH (75*bar + 0*beat) 0 (beat * 4),
      genN (76*bar + 0*beat) 2, genN (76*bar + 2*beat) 3,
      genH (77*bar + 0*beat) 1 (beat * 2), genN (77*bar + 2*beat) 0,
      genN (78*bar + 0*beat) 0, genN (78*bar + 1*beat) 1,
      genN (78*bar + 2*beat) 2, genN (78*bar + 3*beat) 3,
      genH (79*bar + 2*beat) 0 (beat * 2)]
  -- FINAL CHORUS (bars 80-87)
  ++ ((List.range' 80 8).flatMap fun b =>
      [genN ((b : ℚ)*bar + 0*beat) 0, genN ((b : ℚ)*bar + 0*beat) 3,
       genN ((b : ℚ)*bar + (1/2)*beat) 1, genN ((b : ℚ)*bar + 1*beat) 2,
       genN ((b : ℚ)*bar + (3/2)*beat) 0, genN ((b : ℚ)*bar + 2*beat) 3,
       genN ((b : ℚ)*bar + (5/2)*beat) 2, genN ((b : ℚ)*bar + 3*beat) 1,
       genN ((b : ℚ)*bar + (7/2)*beat) (b % 4)])
  -- FINAL CHORUS second half (bars 88-95)
  ++ ((List.range' 88 8).flatMap fun b =>
      [genN ((b : ℚ)*bar + 0*beat) (b % 4),
       genN ((b : ℚ)*bar + (1/2)*beat) ((b + 1) % 4),
       genN ((b : ℚ)*bar + 1*beat) ((b + 2) % 4),
       genN ((b : ℚ)*bar + (3/2)*beat) ((b + 3) % 4),
       genN ((b : ℚ)*bar + 2*beat) ((b + 1) % 4),
       genN ((b : ℚ)*bar + (5/2)*beat) ((b + 2) % 4),
       genN ((b : ℚ)*bar + 3*beat) ((b + 3) % 4)])
  -- OUTRO (bars 96-103)
  ++ ((List.range' 96 4).flatMap fun b =>
      [genN ((b : ℚ)*bar + 0*beat) 0, genN ((b : ℚ)*bar + 2*beat) 2])
  ++ [genN (100*bar + 0*beat) 0, genN (100*bar + 2*beat) 0,
      genH (101*bar + 0*beat) 0 (beat * 4), genH (102*bar + 0*beat) 0 (beat * 6)]

/-- `noteId++` id assignment in push order. -/
def assignIds : ℕ → List GenNote → List Note
  | _, [] => []
  | i, g :: rest =>
      ⟨i, g.time, g.lane, g.type, g.duration, false, false, false⟩ ::
        assignIds (i + 1) rest

/-- `BeatmapManager.generateDefault()`: build the fallback chart, sort it by
time, and set `duration = this.notes[this.notes.length - 1].time + 3` — a
trailing margin of 3 seconds (the list is never empty; the `none` branch is
unreachable).  `this.allNotes` is NOT touched by this revision. -/
def BeatmapManager.generateDefault (m : BeatmapManager) : BeatmapManager :=
  let notes := (assignIds 0 generatedChart).mergeSort noteTimeLE
  let duration := durationOf 3 notes
  { m with bpm := 134, offset := 0, trackName := "payments_on_lock",
           notes := notes, duration := duration, sections := initSections }

/-- Time of the latest (maximal-time) note in a list, `0` for the empty
list.  This is the "latest active note" the specification's duration rule
refers to. -/
def latestTime : List Note → ℚ
  | [] => 0
  | n :: rest => rest.foldl (fun acc x => max acc x.time) n.time

/-! ## Press resolution (`Game.judgePress`, src/js/game.js) -/

/-- The slice of the `Game` state that `judgePress` touches. -/
structure Game where
  beatmap : BeatmapManager
  scorer : Scorer
deriving DecidableEq, Repr

/-- The selection loop of `judgePress`: `closest = null; closestDiff =
Infinity; for (note of candidates) if (|note.time - currentTime| <
closestDiff) take it`.  `none` plays null/Infinity, so the first candidate
always wins; `closestDiff` is invariantly the deviation of the current
closest, recomputed here instead of carried.  Candidates are paired with
their position in `notes` (the JS candidates alias the array elements, so
the position stands for object identity). -/
def closestAux (currentTime : ℚ) :
    Option (ℕ × Note) → List (ℕ × Note) → Option (ℕ × Note)
  | acc, [] => acc
  | acc, p :: rest =>
      match acc with
      | none => closestAux currentTime (some p) rest
      | some c =>
          if |p.2.time - currentTime| < |c.2.time - currentTime| then
            closestAux currentTime (some p) rest
          else
            closestAux currentTime (some c) rest

/-- The judgable candidates paired with their positions in `notes`; the
second components are exactly `getJudgableNotes`. -/
def judgableIdx (m : BeatmapManager) (currentTime : ℚ) (lane : ℕ)
    (window : ℚ) : List (ℕ × Note) :=
  m.notes.enum.filter fun p =>
    p.2.lane == lane && !p.2.judged && decide (|p.2.time - currentTime| ≤ window)

/-- `Game.judgePress(lane, currentTime)`: query the candidates within the
outer miss window; if none, return unchanged (`if (candidates.length === 0)
return`).  Otherwise pick the closest candidate (ties to the first in
iteration order), classify its signed delta, mark it judged (`hit` iff the
tier is not CHARGEBACK) and feed the tier to `Scorer.addHit`.  Rendering,
sfx and vibration calls are external. -/
def Game.judgePress (g : Game) (lane : ℕ) (currentTime : ℚ) : Game :=
  match closestAux currentTime none
      (judgableIdx g.beatmap currentTime lane TIMING.miss) with
  | none => g
  | some (i, closest) =>
      let timeDiff := closest.time - currentTime
      let judgment := judge timeDiff
      let marked : Note :=
        { closest with judged := true, hit := judgment != Judgment.CHARGEBACK }
      { beatmap := { g.beatmap with notes := g.beatmap.notes.set i marked }
        scorer := (g.scorer.addHit judgment currentTime).1 }

/-! ## Concrete inputs used by counterexamples and witnesses -/

/-- A raw beatmap whose two note descriptors are out of time order:
`{bpm: 120, notes: [{time: 2, lane: 0}, {time: 1, lane: 1}]}`. -/
def unsortedRaw : RawBeatmap :=
  ⟨some 120, none, none, [⟨2, 0, none, none⟩, ⟨1, 1, none, none⟩]⟩

/-- A raw beatmap with 10001 note descriptors; its first adjacent pair has
gap 1 s, inside the HARD insertion window `(3/4, 2)` at 120 BPM. -/
def hugeRaw : RawBeatmap :=
  ⟨some 120, none, none,
    ⟨0, 0, none, none⟩ :: ⟨1, 0, none, none⟩ ::
      List.replicate 9999 ⟨100, 0, none, none⟩⟩

/-- The loaded 10001-note beatmap. -/
def hugeM : BeatmapManager := BeatmapManager.init.load hugeRaw

/-- A small sorted three-note raw beatmap (witness input). -/
def smallRaw : RawBeatmap :=
  ⟨some 120, none, none,
    [⟨1, 0, none, none⟩, ⟨2, 1, none, none⟩, ⟨4, 2, none, none⟩]⟩

/-- A game state holding two unjudged lane-0 notes stored in reverse time
order (times 6/5 and 4/5): at `currentTime = 1` both deviate by exactly
1/5. -/
def tieGame : Game :=
  ⟨{ BeatmapManager.init with notes :=
      [⟨0, 6/5, 0, NoteType.tap, 0, false, false, false⟩,
       ⟨1, 4/5, 0, NoteType.tap, 0, false, false, false⟩] }, Scorer.reset⟩

/-- How often a single note is swept over a sequence of sweep instants,
following its flag evolution (`markMissedNotes` acts pointwise). -/
def sweepCount (w : ℚ) : Note → List ℚ → ℕ
  | _, [] => 0
  | n, t :: ts =>
      (if sweptP t w n then 1 else 0) +
        sweepCount w (if sweptP t w n then sweepMark n else n) ts

/-! ## Claim C2: classification boundaries -/

/-- C2: the tier depends only on `|d|`; boundaries are inclusive on the
better side: `|d| ≤ 0.045` APPROVED, `0.045 < |d| ≤ 0.100` PENDING,
`0.100 < |d| ≤ 0.150` DECLINED, `|d| > 0.150` CHARGEBACK; exactly `0.045`
is APPROVED and `0.046` is PENDING. -/
theorem judge_boundaries (d : ℚ) :
    judge d = judge |d| ∧
    (judge d = Judgment.APPROVED ↔ |d| ≤ 45/1000) ∧
    (judge d = Judgment.PENDING ↔ 45/1000 < |d| ∧ |d| ≤ 100/1000) ∧
    (judge d = Judgment.DECLINED ↔ 100/1000 < |d| ∧ |d| ≤ 150/1000) ∧
    (judge d = Judgment.CHARGEBACK ↔ 150/1000 < |d|) ∧
    judge (45/1000) = Judgment.APPROVED ∧
    judge (46/1000) = Judgment.PENDING := by
  have key : ∀ e : ℚ,
      (judge e = Judgment.APPROVED ↔ |e| ≤ 45/1000) ∧
      (judge e = Judgment.PENDING ↔ 45/1000 < |e| ∧ |e| ≤ 100/1000) ∧
      (judge e = Judgment.DECLINED ↔ 100/1000 < |e| ∧ |e| ≤ 150/1000) ∧
      (judge e = Judgment.CHARGEBACK ↔ 150/1000 < |e|) := by
    intro e
    refine ⟨?_, ?_, ?_, ?_⟩ <;>
    · simp only [judge, TIMING]
      split_ifs with h1 h2 h3 <;> simp_all <;>
      first
        | exact ⟨by linarith, by linarith⟩
        | (intro hq; linarith)
        | (push_neg; intro hq; linarith)
        | linarith
  refine ⟨by simp only [judge, abs_abs],
    (key d).1, (key d).2.1, (key d).2.2.1, (key d).2.2.2, ?_, ?_⟩
  · exact (key _).1.mpr (by rw [abs_of_nonneg] <;> norm_num)
  · exact (key _).2.1.mpr ⟨by rw [abs_of_nonneg] <;> norm_num,
      by rw [abs_of_nonneg] <;> norm_num⟩

/-! ## Claim C8: derived stats at zero judgments -/

/-- C8: with zero judgments applied, the derived stats are defined without
division by zero: grade `'D'`, approval rate `0`, risk level `LOW`. -/
theorem derived_stats_at_zero (s : Scorer) (h : s.totalNotes = 0) :
    s.getGrade = "D" ∧ s.getApprovalRate = 0 ∧
    s.getRiskLevel = ⟨"LOW", "#00ff88"⟩ := by
  refine ⟨?_, ?_, ?_⟩ <;>
    norm_num [Scorer.getGrade, Scorer.getApprovalRate, Scorer.getRiskLevel, h]

/-- C8 witness: the freshly reset scorer has zero judgments and the stated
derived stats. -/
theorem derived_stats_at_zero_witness :
    Scorer.reset.totalNotes = 0 ∧
    (Scorer.reset.getGrade = "D" ∧ Scorer.reset.getApprovalRate = 0 ∧
      Scorer.reset.getRiskLevel = ⟨"LOW", "#00ff88"⟩) :=
  ⟨rfl, derived_stats_at_zero Scorer.reset rfl⟩

/-! ## Claim C4: applyJudgment (`addHit`) -/

/-- One `addHit` call never decreases `maxCombo`. -/
theorem addHit_maxCombo_le (s : Scorer) (j : Judgment) (t : ℚ) :
    s.maxCombo ≤ (s.addHit j t).1.maxCombo := by
  by_cases h : j = Judgment.CHARGEBACK <;>
    simp only [Scorer.addHit, h, if_true, if_false, reduceIte] <;>
    first
      | omega
      | (split_ifs <;> omega)

/-- `maxCombo` is non-decreasing across any sequence of `addHit` calls. -/
theorem foldl_addHit_maxCombo_le (s : Scorer) (events : List (Judgment × ℚ)) :
    s.maxCombo ≤
      (events.foldl (fun st e => (st.addHit e.1 e.2).1) s).maxCombo := by
  induction events generalizing s with
  | nil => simp
  | cons e es ih =>
      rw [List.foldl_cons]
      exact le_trans (addHit_maxCombo_le s e.1 e.2) (ih _)

/-- C4: `addHit` bumps exactly the given tier's counter and the total; the
worst tier resets combo and multiplier, any other tier increments combo,
tracks `maxCombo = max maxCombo combo` (non-decreasing over any call
sequence) and recomputes the multiplier from the breakpoints
`≥100 → 8, ≥50 → 4, ≥25 → 3, ≥10 → 2, else 1`; points awarded are
`SCORE_VALUES[tier] * multiplier` (base values 300/200/50/0, descending,
worst = 0), added to the score; the operation is total. -/
theorem addHit_spec (s : Scorer) (j : Judgment) (t : ℚ) :
    ((s.addHit j t).1.counts.get j = s.counts.get j + 1) ∧
    (∀ j', j' ≠ j → (s.addHit j t).1.counts.get j' = s.counts.get j') ∧
    ((s.addHit j t).1.totalNotes = s.totalNotes + 1) ∧
    (j = Judgment.CHARGEBACK →
      (s.addHit j t).1.combo = 0 ∧ (s.addHit j t).1.multiplier = 1) ∧
    (j ≠ Judgment.CHARGEBACK →
      (s.addHit j t).1.combo = s.combo + 1 ∧
      (s.addHit j t).1.maxCombo = max s.maxCombo (s.combo + 1) ∧
      (s.addHit j t).1.multiplier =
        (if s.combo + 1 ≥ 100 then 8 else if s.combo + 1 ≥ 50 then 4
         else if s.combo + 1 ≥ 25 then 3 else if s.combo + 1 ≥ 10 then 2
         else 1)) ∧
    ((s.addHit j t).2.points = SCORE_VALUES j * (s.addHit j t).1.multiplier) ∧
    ((s.addHit j t).1.score = s.score + (s.addHit j t).2.points) ∧
    (∀ events : List (Judgment × ℚ),
      s.maxCombo ≤
        (events.foldl (fun st e => (st.addHit e.1 e.2).1) s).maxCombo) ∧
    (SCORE_VALUES Judgment.APPROVED = 300 ∧
     SCORE_VALUES Judgment.PENDING = 200 ∧
     SCORE_VALUES Judgment.DECLINED = 50 ∧
     SCORE_VALUES Judgment.CHARGEBACK = 0) := by
  refine ⟨?_, ?_, ?_, ?_, ?_, ?_, ?_,
    fun events => foldl_addHit_maxCombo_le s events, rfl, rfl, rfl, rfl⟩
  · cases j <;> simp [Scorer.addHit, Counts.bump, Counts.get]
  · intro j' hj'
    cases j <;> cases j' <;>
      simp_all [Scorer.addHit, Counts.bump, Counts.get]
  · by_cases h : j = Judgment.CHARGEBACK <;> simp [Scorer.addHit, h]
  · intro h
    subst h
    simp [Scorer.addHit]
  · intro h
    have hmax : (if s.combo + 1 > s.maxCombo then s.combo + 1 else s.maxCombo)
        = max s.maxCombo (s.combo + 1) := by split_ifs <;> omega
    simp [Scorer.addHit, h, hmax]
  · by_cases h : j = Judgment.CHARGEBACK <;> simp [Scorer.addHit, h]
  · by_cases h : j = Judgment.CHARGEBACK <;> simp [Scorer.addHit, h]

/-- C4 witness: a concrete APPROVED hit on the reset scorer leaves other
counters unchanged and increments the combo. -/
theorem addHit_spec_witness :
    Judgment.PENDING ≠ Judgment.APPROVED ∧
    (Scorer.reset.addHit Judgment.APPROVED 0).1.counts.get Judgment.PENDING
      = Scorer.reset.counts.get Judgment.PENDING ∧
    Judgment.APPROVED ≠ Judgment.CHARGEBACK ∧
    (Scorer.reset.addHit Judgment.APPROVED 0).1.combo
      = Scorer.reset.combo + 1 :=
  ⟨by decide,
   (addHit_spec Scorer.reset Judgment.APPROVED 0).2.1 Judgment.PENDING
     (by decide),
   by decide,
   ((addHit_spec Scorer.reset Judgment.APPROVED 0).2.2.2.2.1 (by decide)).1⟩

/-! ## Claim C7: sweep idempotence and at-most-once -/

/-- The sweep acts pointwise: the returned list is the filtered notes after
marking, the updated sequence maps each note through the conditional mark. -/
theorem markMissedNotes_eq (t w : ℚ) (ns : List Note) :
    markMissedNotes t w ns =
      ((ns.filter (sweptP t w)).map sweepMark,
       ns.map fun n => if sweptP t w n then sweepMark n else n) := by
  induction ns with
  | nil => rfl
  | cons n rest ih =>
      simp only [markMissedNotes, ih, List.filter_cons, List.map_cons]
      by_cases h : sweptP t w n <;> simp [h]

/-- A marked note is never swept again. -/
theorem sweptP_sweepMark (t w : ℚ) (n : Note) :
    sweptP t w (sweepMark n) = false := by
  simp [sweptP, sweepMark]

/-- A judged note is never swept, at any instant. -/
theorem sweepCount_judged (w : ℚ) (n : Note) (h : n.judged = true)
    (ts : List ℚ) : sweepCount w n ts = 0 := by
  induction ts with
  | nil => rfl
  | cons t ts ih => simp [sweepCount, sweptP, h, ih]

/-- Over any sequence of sweep instants a note is swept at most once. -/
theorem sweepCount_le_one (w : ℚ) (n : Note) (ts : List ℚ) :
    sweepCount w n ts ≤ 1 := by
  induction ts generalizing n with
  | nil => simp [sweepCount]
  | cons t ts ih =>
      by_cases h : sweptP t w n
      · simp [sweepCount, h,
          sweepCount_judged w (sweepMark n) (by simp [sweepMark]) ts]
      · simpa [sweepCount, h] using ih n

/-- C7: sweeping is idempotent per instant (a second call at the same
`currentTime` returns the empty list), acts pointwise on a stable sequence
(same length, order and id/time/lane per position; only the
`missed`/`judged` flags flip, both to `true`), and over any sequence of
calls each note is swept at most once. -/
theorem markMissedNotes_spec (t w : ℚ) (ns : List Note) :
    ((markMissedNotes t w ns).1 = (ns.filter (sweptP t w)).map sweepMark) ∧
    ((markMissedNotes t w ns).2 =
      ns.map fun n => if sweptP t w n then sweepMark n else n) ∧
    ((markMissedNotes t w ((markMissedNotes t w ns).2)).1 = []) ∧
    ((markMissedNotes t w ns).2.length = ns.length) ∧
    (∀ n : Note, (sweepMark n).id = n.id ∧ (sweepMark n).time = n.time ∧
      (sweepMark n).lane = n.lane ∧ (sweepMark n).judged = true ∧
      (sweepMark n).missed = true) ∧
    (∀ (n : Note) (ts : List ℚ), sweepCount w n ts ≤ 1) := by
  refine ⟨by rw [markMissedNotes_eq], by rw [markMissedNotes_eq], ?_, ?_,
    fun n => ⟨rfl, rfl, rfl, rfl, rfl⟩,
    fun n ts => sweepCount_le_one w n ts⟩
  · rw [markMissedNotes_eq, markMissedNotes_eq]
    simp only []
    rw [List.filter_eq_nil_iff.mpr, List.map_nil]
    intro x hx
    rcases List.mem_map.mp hx with ⟨y, _, hy⟩
    by_cases h : sweptP t w y
    · simp only [h, if_true] at hy
      rw [← hy]
      simp [sweptP_sweepMark]
    · simp only [h, if_false] at hy
      rw [← hy]
      simp [h]
  · rw [markMissedNotes_eq]
    simp

/-! ## Claim C10: outer-window boundary harmony -/

/-- Membership characterization of `getJudgableNotes`. -/
theorem mem_getJudgableNotes (m : BeatmapManager) (t : ℚ) (lane : ℕ) (w : ℚ)
    (n : Note) :
    n ∈ m.getJudgableNotes t lane w ↔
      n ∈ m.notes ∧ n.lane = lane ∧ n.judged = false ∧ |n.time - t| ≤ w := by
  simp [BeatmapManager.getJudgableNotes, List.mem_filter, and_assoc]

/-- C10: a judgable candidate is never simultaneously sweep-eligible, and a
note at exactly the outer 0.200 s deviation is still a press candidate
(classifying as CHARGEBACK) rather than being swept. -/
theorem window_boundary (m : BeatmapManager) (n : Note) (t : ℚ) (lane : ℕ) :
    (n ∈ m.getJudgableNotes t lane TIMING.miss →
      sweptP t TIMING.miss n = false ∧
      n ∉ (markMissedNotes t TIMING.miss m.notes).1) ∧
    (|n.time - t| = TIMING.miss → n.lane = lane → n.judged = false →
      n ∈ m.notes →
      n ∈ m.getJudgableNotes t lane TIMING.miss ∧
      judge (n.time - t) = Judgment.CHARGEBACK) := by
  constructor
  · intro hmem
    obtain ⟨hin, hlane, hjudged, habs⟩ :=
      (mem_getJudgableNotes m t lane TIMING.miss n).mp hmem
    have hle : t - n.time ≤ TIMING.miss := by
      have h1 : t - n.time ≤ |n.time - t| := by
        rw [abs_sub_comm]
        exact le_abs_self _
      linarith
    constructor
    · simp only [sweptP, Bool.and_eq_false_iff]
      right
      simp only [decide_eq_false_iff_not]
      linarith
    · intro hbad
      rw [markMissedNotes_eq] at hbad
      rcases List.mem_map.mp hbad with ⟨y, _, hy⟩
      have : n.judged = true := by rw [← hy]; rfl
      rw [hjudged] at this
      exact Bool.false_ne_true this
  · intro habs hlane hjudged hin
    have hj : judge (n.time - t) = Judgment.CHARGEBACK := by
      simp only [judge, TIMING] at habs ⊢
      rw [habs]
      norm_num
    exact ⟨(mem_getJudgableNotes m t lane TIMING.miss n).mpr
      ⟨hin, hlane, hjudged, le_of_eq habs⟩, hj⟩

/-- A note whose deviation from `currentTime = 1` is exactly 0.200 s. -/
def boundaryNote : Note := ⟨0, 6/5, 0, NoteType.tap, 0, false, false, false⟩

/-- A beatmap holding just `boundaryNote`. -/
def boundaryMap : BeatmapManager :=
  { BeatmapManager.init with notes := [boundaryNote] }

/-- C10 witness: `boundaryNote` at `currentTime = 1` deviates by exactly the
outer window, is judgable, and classifies as CHARGEBACK. -/
theorem window_boundary_witness :
    |boundaryNote.time - 1| = TIMING.miss ∧
    (boundaryNote ∈ boundaryMap.getJudgableNotes 1 0 TIMING.miss ∧
      judge (boundaryNote.time - 1) = Judgment.CHARGEBACK) := by
  have habs : |boundaryNote.time - 1| = TIMING.miss := by
    rw [show boundaryNote.time - 1 = 1/5 by norm_num [boundaryNote],
      abs_of_nonneg (by norm_num)]
    norm_num [TIMING]
  exact ⟨habs,
    (window_boundary boundaryMap boundaryNote 1 0).2 habs rfl rfl
      (List.mem_singleton.mpr rfl)⟩

/-! ## Claim C3: load does not sort -/

/-- C3: `load` stores the canonical notes in input order — an out-of-order
input stays out of order (times `[2, 1]`), refuting "sorted on load". -/
theorem load_does_not_sort :
    ((BeatmapManager.init.load unsortedRaw).allNotes.map CanonNote.time
      = [2, 1]) ∧
    ¬ List.Sorted (fun a b : CanonNote => a.time ≤ b.time)
        (BeatmapManager.init.load unsortedRaw).allNotes := by
  have hall : (BeatmapManager.init.load unsortedRaw).allNotes =
      [⟨0, 2, 0, NoteType.tap, 0⟩, ⟨1, 1, 1, NoteType.tap, 0⟩] := rfl
  refine ⟨by rw [hall]; rfl, ?_⟩
  rw [hall]
  intro hs
  have h21 := (List.sorted_cons.mp hs).1 _ (List.mem_singleton.mpr rfl)
  norm_num at h21

/-! ## Claim C9: duration margins -/

/-- `assignIds` preserves the length. -/
theorem assignIds_length : ∀ (i : ℕ) (l : List GenNote),
    (assignIds i l).length = l.length
  | _, [] => rfl
  | i, _ :: rest => by simp [assignIds, assignIds_length (i + 1) rest]

/-- The generated chart is nonempty. -/
theorem generatedChart_ne_nil : generatedChart.length ≠ 0 := by
  simp only [generatedChart, List.length_append, List.length_cons]
  omega

/-- For a nonempty time-sorted list, `latestTime` is the last element's
time. -/
theorem latestTime_eq_getLast : ∀ (l : List Note) (h : l ≠ []),
    List.Sorted (fun a b : Note => a.time ≤ b.time) l →
    latestTime l = (l.getLast h).time
  | [_], _, _ => rfl
  | a :: b :: t, _, hs => by
      have hab : a.time ≤ b.time :=
        (List.sorted_cons.mp hs).1 b (List.mem_cons_self b t)
      have ht := (List.sorted_cons.mp hs).2
      have hstep : latestTime (a :: b :: t) = latestTime (b :: t) := by
        simp only [latestTime, List.foldl_cons]
        rw [max_eq_right hab]
      rw [hstep, latestTime_eq_getLast (b :: t) (List.cons_ne_nil b t) ht,
        List.getLast_cons (List.cons_ne_nil b t)]

/-- `mergeSort` by `noteTimeLE` sorts by time. -/
theorem sorted_mergeSort_noteTimeLE (l : List Note) :
    List.Sorted (fun a b : Note => a.time ≤ b.time)
      (l.mergeSort noteTimeLE) := by
  have htrans : ∀ a b c : Note, noteTimeLE a b = true → noteTimeLE b c = true →
      noteTimeLE a c = true := by
    intro a b c hab hbc
    simp only [noteTimeLE, decide_eq_true_eq] at hab hbc ⊢
    exact le_trans hab hbc
  have htotal : ∀ a b : Note, (noteTimeLE a b || noteTimeLE b a) = true := by
    intro a b
    simp only [noteTimeLE, Bool.or_eq_true, decide_eq_true_eq]
    exact le_total a.time b.time
  have h := @List.sorted_mergeSort Note noteTimeLE htrans htotal l
  exact h.imp fun hab => by
    simpa only [noteTimeLE, decide_eq_true_eq] using hab

/-- `mergeSort` by `canonTimeLE` sorts by time. -/
theorem sorted_mergeSort_canonTimeLE (l : List CanonNote) :
    List.Sorted (fun a b : CanonNote => a.time ≤ b.time)
      (l.mergeSort canonTimeLE) := by
  have htrans : ∀ a b c : CanonNote, canonTimeLE a b = true →
      canonTimeLE b c = true → canonTimeLE a c = true := by
    intro a b c hab hbc
    simp only [canonTimeLE, decide_eq_true_eq] at hab hbc ⊢
    exact le_trans hab hbc
  have htotal : ∀ a b : CanonNote,
      (canonTimeLE a b || canonTimeLE b a) = true := by
    intro a b
    simp only [canonTimeLE, Bool.or_eq_true, decide_eq_true_eq]
    exact le_total a.time b.time
  have h := @List.sorted_mergeSort CanonNote canonTimeLE htrans htotal l
  exact h.imp fun hab => by
    simpa only [canonTimeLE, decide_eq_true_eq] using hab

/-- `durationOf` on a list with a last element. -/
theorem durationOf_some (margin : ℚ) (notes : List Note) (n : Note)
    (h : notes.getLast? = some n) :
    durationOf margin notes = n.time + margin := by
  unfold durationOf
  rw [h]

/-- `durationOf` on the empty list. -/
theorem durationOf_nil (margin : ℚ) : durationOf margin [] = 0 := rfl

/-- The fallback chart's duration is the latest note's time plus 3 — not
plus 2. -/
theorem generateDefault_duration (m : BeatmapManager) :
    (m.generateDefault).duration =
      latestTime (m.generateDefault).notes + 3 := by
  have hne : (assignIds 0 generatedChart).mergeSort noteTimeLE ≠ [] := by
    intro hnil
    have hlen := @List.length_mergeSort Note noteTimeLE
      (assignIds 0 generatedChart)
    rw [hnil, List.length_nil, assignIds_length] at hlen
    exact generatedChart_ne_nil hlen.symm
  have hdur0 : (m.generateDefault).duration =
      durationOf 3 ((assignIds 0 generatedChart).mergeSort noteTimeLE) := rfl
  have hnotes : (m.generateDefault).notes =
      (assignIds 0 generatedChart).mergeSort noteTimeLE := rfl
  rw [hdur0, durationOf_some 3 _ _ (List.getLast?_eq_getLast _ hne),
    hnotes, latestTime_eq_getLast _ hne (sorted_mergeSort_noteTimeLE _)]

/-- C9 counterexample: the generated fallback's duration is latest + 3
(≠ latest + 2), and an unsorted successful load sets duration from the last
stored note (3) rather than the latest note (2) plus the margin. -/
theorem duration_margin_counterexample :
    ((BeatmapManager.init.generateDefault).duration ≠
      latestTime (BeatmapManager.init.generateDefault).notes + 2) ∧
    ((BeatmapManager.init.load unsortedRaw).duration = 3 ∧
      latestTime (BeatmapManager.init.load unsortedRaw).notes = 2 ∧
      (BeatmapManager.init.load unsortedRaw).duration ≠
        latestTime (BeatmapManager.init.load unsortedRaw).notes + 2) := by
  have hdur : (BeatmapManager.init.load unsortedRaw).duration = 1 + 2 := rfl
  have hnotes : (BeatmapManager.init.load unsortedRaw).notes =
      [⟨0, 2, 0, NoteType.tap, 0, false, false, false⟩,
       ⟨1, 1, 1, NoteType.tap, 0, false, false, false⟩] := rfl
  have hlatest : latestTime (BeatmapManager.init.load unsortedRaw).notes
      = 2 := by
    rw [hnotes]
    simp only [latestTime, List.foldl_cons, List.foldl_nil]
    norm_num [max_def]
  refine ⟨?_, by rw [hdur]; norm_num, hlatest, ?_⟩
  · rw [generateDefault_duration]
    intro h
    have : (3 : ℚ) = 2 := by linarith
    norm_num at this
  · rw [hdur, hlatest]
    norm_num

/-- C9 amended: after a successful `load` and after `applyDifficulty` the
duration is the LAST STORED active note's time plus 2 (0 when empty) — that
note is the latest one whenever the list is time-sorted, which `HARD`
guarantees; the generated fallback instead uses the latest time plus 3. -/
theorem duration_rule (m : BeatmapManager) (data : RawBeatmap)
    (level : String) :
    ((m.load data).notes = [] → (m.load data).duration = 0) ∧
    (∀ n, (m.load data).notes.getLast? = some n →
      (m.load data).duration = n.time + 2) ∧
    ((m.applyDifficulty level).notes = [] →
      (m.applyDifficulty level).duration = 0) ∧
    (∀ n, (m.applyDifficulty level).notes.getLast? = some n →
      (m.applyDifficulty level).duration = n.time + 2) ∧
    ((m.applyDifficulty "HARD").notes ≠ [] →
      (m.applyDifficulty "HARD").duration =
        latestTime (m.applyDifficulty "HARD").notes + 2) ∧
    ((m.generateDefault).duration =
      latestTime (m.generateDefault).notes + 3) := by
  have kload : (m.load data).duration =
      durationOf 2 (m.load data).notes := rfl
  have kapply : ∀ lv : String, (m.applyDifficulty lv).duration =
      durationOf 2 (m.applyDifficulty lv).notes := fun _ => rfl
  refine ⟨?_, ?_, ?_, ?_, ?_, generateDefault_duration m⟩
  · intro h
    rw [kload, h, durationOf_nil]
  · intro n hn
    rw [kload, durationOf_some 2 _ _ hn]
  · intro h
    rw [kapply level, h, durationOf_nil]
  · intro n hn
    rw [kapply level, durationOf_some 2 _ _ hn]
  · intro hne
    have hnotes : (m.applyDifficulty "HARD").notes =
        ((m.allNotes ++ hardExtras (60 / m.bpm) 0 m.allNotes).mergeSort
          canonTimeLE).map (CanonNote.withOffset m.offset) := by
      have h1 : ("HARD" : String) ≠ "EASY" := by decide
      simp only [BeatmapManager.applyDifficulty, if_neg h1, if_pos rfl]
      simp
    have hsorted : List.Sorted (fun a b : Note => a.time ≤ b.time)
        (m.applyDifficulty "HARD").notes := by
      rw [hnotes]
      exact List.Pairwise.map _
        (fun a b hab => by
          simpa only [CanonNote.withOffset] using
            add_le_add_right hab m.offset)
        (sorted_mergeSort_canonTimeLE _)
    rw [kapply "HARD", durationOf_some 2 _ _ (List.getLast?_eq_getLast _ hne),
      latestTime_eq_getLast _ hne hsorted]

/-- C9 witness: loading the small sorted beatmap ends with the note at
time 4 and duration 6. -/
theorem duration_rule_witness :
    (BeatmapManager.init.load smallRaw).notes.getLast? =
      some ⟨2, 4, 2, NoteType.tap, 0, false, false, false⟩ ∧
    (BeatmapManager.init.load smallRaw).duration =
      (⟨2, 4, 2, NoteType.tap, 0, false, false, false⟩ : Note).time + 2 :=
  ⟨rfl, (duration_rule BeatmapManager.init smallRaw "NORMAL").2.1 _ rfl⟩

/-! ## Claim C5: difficulty transform is pure in the canonical list -/

/-- Index shifting by 2 does not change the even-index filter. -/
theorem easy_shift (l : List CanonNote) : ∀ i : ℕ,
    ((List.enumFrom (i + 2) l).filter (fun p => p.1 % 2 == 0)).map Prod.snd =
      ((List.enumFrom i l).filter (fun p => p.1 % 2 == 0)).map Prod.snd := by
  induction l with
  | nil => intro i; rfl
  | cons a t ih =>
      intro i
      have hmod : (i + 2) % 2 = i % 2 := by omega
      simp only [List.enumFrom_cons, List.filter_cons, hmod]
      by_cases h : (i % 2 == 0) = true
      · simp only [if_pos h, List.map_cons]
        rw [show i + 2 + 1 = i + 1 + 2 by omega, ih (i + 1)]
      · simp only [if_neg h]
        rw [show i + 2 + 1 = i + 1 + 2 by omega, ih (i + 1)]

/-- The even-index filter takes the head and recurses two positions down. -/
theorem easyFilter_cons_cons (a b : CanonNote) (l : List CanonNote) :
    easyFilter (a :: b :: l) = a :: easyFilter l := by
  simp only [easyFilter, List.enum, List.enumFrom_cons, List.filter_cons]
  norm_num
  exact easy_shift l 0

/-- EASY keeps `⌈N/2⌉ = (N + 1) / 2` notes. -/
theorem easyFilter_length : ∀ l : List CanonNote,
    (easyFilter l).length = (l.length + 1) / 2
  | [] => rfl
  | [_] => by simp [easyFilter, List.enum]
  | a :: b :: l => by
      rw [easyFilter_cons_cons]
      simp only [List.length_cons, easyFilter_length l]
      omega

/-- C5: `applyDifficulty` is a pure function of `canonicalNotes`: a second
application (any levels) equals a single one, so the offset is added exactly
once and never accumulated; EASY keeps exactly the even canonical indices,
`⌈N/2⌉` notes; NORMAL after EASY restores all N canonical notes with only
the single offset applied to each time. -/
theorem applyDifficulty_pure (m : BeatmapManager) (l1 l2 : String) :
    ((m.applyDifficulty l1).applyDifficulty l2 = m.applyDifficulty l2) ∧
    ((m.applyDifficulty "EASY").notes =
      (easyFilter m.allNotes).map (CanonNote.withOffset m.offset)) ∧
    ((m.applyDifficulty "EASY").notes.length =
      (m.allNotes.length + 1) / 2) ∧
    (((m.applyDifficulty "EASY").applyDifficulty "NORMAL").notes =
      m.allNotes.map (CanonNote.withOffset m.offset)) ∧
    (((m.applyDifficulty "EASY").applyDifficulty "NORMAL").notes.length =
      m.allNotes.length) ∧
    (∀ n ∈ (m.applyDifficulty "NORMAL").notes, ∃ c ∈ m.allNotes,
      n = CanonNote.withOffset m.offset c ∧ n.time = c.time + m.offset ∧
      n.lane = c.lane ∧ n.id = c.id) := by
  have hnormal : ∀ mm : BeatmapManager, (mm.applyDifficulty "NORMAL").notes =
      mm.allNotes.map (CanonNote.withOffset mm.offset) := by
    intro mm
    have h1 : ("NORMAL" : String) ≠ "EASY" := by decide
    have h2 : ("NORMAL" : String) ≠ "HARD" := by decide
    simp only [BeatmapManager.applyDifficulty, if_neg h1, if_neg h2]
  have heasy : (m.applyDifficulty "EASY").notes =
      (easyFilter m.allNotes).map (CanonNote.withOffset m.offset) := by
    simp only [BeatmapManager.applyDifficulty, if_pos rfl]
    simp
  have hpure : ∀ lv lv' : String,
      (m.applyDifficulty lv).applyDifficulty lv' = m.applyDifficulty lv' :=
    fun _ _ => rfl
  refine ⟨hpure l1 l2, heasy, ?_, ?_, ?_, ?_⟩
  · rw [heasy, List.length_map, easyFilter_length]
  · rw [hpure "EASY" "NORMAL", hnormal m]
  · rw [hpure "EASY" "NORMAL", hnormal m, List.length_map]
  · intro n hn
    rw [hnormal m] at hn
    rcases List.mem_map.mp hn with ⟨c, hc, hcn⟩
    exact ⟨c, hc, hcn.symm, by rw [← hcn]; exact ⟨rfl, rfl, rfl⟩⟩

/-- C5 witness: on the loaded small beatmap, the first NORMAL active note
comes from the first canonical note with the offset applied once. -/
theorem applyDifficulty_pure_witness :
    CanonNote.withOffset 0 ⟨0, 1, 0, NoteType.tap, 0⟩ ∈
      ((BeatmapManager.init.load smallRaw).applyDifficulty "NORMAL").notes ∧
    ∃ c ∈ (BeatmapManager.init.load smallRaw).allNotes,
      CanonNote.withOffset 0 ⟨0, 1, 0, NoteType.tap, 0⟩ =
        CanonNote.withOffset (BeatmapManager.init.load smallRaw).offset c ∧
      (CanonNote.withOffset 0 ⟨0, 1, 0, NoteType.tap, 0⟩).time =
        c.time + (BeatmapManager.init.load smallRaw).offset ∧
      (CanonNote.withOffset 0 ⟨0, 1, 0, NoteType.tap, 0⟩).lane = c.lane ∧
      (CanonNote.withOffset 0 ⟨0, 1, 0, NoteType.tap, 0⟩).id = c.id := by
  have hnotes :
      ((BeatmapManager.init.load smallRaw).applyDifficulty "NORMAL").notes =
      [CanonNote.withOffset 0 ⟨0, 1, 0, NoteType.tap, 0⟩,
       CanonNote.withOffset 0 ⟨1, 2, 1, NoteType.tap, 0⟩,
       CanonNote.withOffset 0 ⟨2, 4, 2, NoteType.tap, 0⟩] := rfl
  have hmem : CanonNote.withOffset 0 ⟨0, 1, 0, NoteType.tap, 0⟩ ∈
      ((BeatmapManager.init.load smallRaw).applyDifficulty "NORMAL").notes := by
    rw [hnotes]
    exact List.mem_cons_self _ _
  exact ⟨hmem,
    (applyDifficulty_pure (BeatmapManager.init.load smallRaw)
      "NORMAL" "NORMAL").2.2.2.2.2 _ hmem⟩

/-! ## Claim C1: press resolution -/

/-- The selection loop started on accumulator `c` returns the first
candidate of `c :: l` (in iteration order) achieving the minimal absolute
deviation: everything before it is strictly farther, everything after it no
closer. -/
theorem closestAux_spec (t : ℚ) : ∀ (l : List (ℕ × Note)) (c : ℕ × Note),
    ∃ r pre post,
      closestAux t (some c) l = some r ∧
      c :: l = pre ++ r :: post ∧
      |r.2.time - t| ≤ |c.2.time - t| ∧
      (∀ x ∈ pre, |r.2.time - t| < |x.2.time - t|) ∧
      (∀ x ∈ post, |r.2.time - t| ≤ |x.2.time - t|)
  | [], c => ⟨c, [], [], rfl, rfl, le_refl _, by simp, by simp⟩
  | p :: rest, c => by
      by_cases hlt : |p.2.time - t| < |c.2.time - t|
      · obtain ⟨r, pre, post, heq, hdecomp, hle, hpre, hpost⟩ :=
          closestAux_spec t rest p
        refine ⟨r, c :: pre, post, ?_, ?_,
          le_trans hle (le_of_lt hlt), ?_, hpost⟩
        · simp only [closestAux]
          rw [if_pos hlt]
          exact heq
        · rw [show (c :: pre) ++ r :: post = c :: (pre ++ r :: post)
            from rfl, ← hdecomp]
        · intro x hx
          rcases List.mem_cons.mp hx with hc | hp
          · rw [hc]
            exact lt_of_le_of_lt hle hlt
          · exact hpre x hp
      · push_neg at hlt
        obtain ⟨r, pre, post, heq, hdecomp, hle, hpre, hpost⟩ :=
          closestAux_spec t rest c
        cases pre with
        | nil =>
            obtain ⟨hc, hrest⟩ : c = r ∧ rest = post := by
              simpa using hdecomp
            refine ⟨r, [], p :: post, ?_, ?_, hle, by simp, ?_⟩
            · simp only [closestAux]
              rw [if_neg (not_lt.mpr hlt)]
              exact heq
            · rw [List.nil_append, ← hc, ← hrest]
            · intro x hx
              rcases List.mem_cons.mp hx with hp | hin
              · rw [hp, ← hc]
                exact hlt
              · exact hpost x hin
        | cons q pre' =>
            obtain ⟨hq, hrest⟩ : c = q ∧ rest = pre' ++ r :: post := by
              simpa using hdecomp
            have hrc : |r.2.time - t| < |c.2.time - t| := by
              have := hpre q (List.mem_cons_self q pre')
              rw [← hq] at this
              exact this
            refine ⟨r, c :: p :: pre', post, ?_, ?_, hle, ?_, hpost⟩
            · simp only [closestAux]
              rw [if_neg (not_lt.mpr hlt)]
              exact heq
            · rw [show (c :: p :: pre') ++ r :: post
                = c :: p :: (pre' ++ r :: post) from rfl, ← hrest]
            · intro x hx
              rcases List.mem_cons.mp hx with hc | hx'
              · rw [hc]
                exact hrc
              · rcases List.mem_cons.mp hx' with hp | hin
                · rw [hp]
                  exact lt_of_lt_of_le hrc hlt
                · exact hpre x (List.mem_cons_of_mem q hin)

/-- The second components of the indexed candidates are exactly
`getJudgableNotes`. -/
theorem judgableIdx_map_snd (m : BeatmapManager) (t : ℚ) (lane : ℕ)
    (w : ℚ) :
    (judgableIdx m t lane w).map Prod.snd = m.getJudgableNotes t lane w := by
  unfold judgableIdx BeatmapManager.getJudgableNotes
  conv_rhs => rw [← List.enum_map_snd m.notes]
  rw [List.map_filter]
  rfl

/-- Candidate positions are strictly increasing in iteration order. -/
theorem judgableIdx_pairwise (m : BeatmapManager) (t : ℚ) (lane : ℕ)
    (w : ℚ) :
    List.Pairwise (fun a b : ℕ × Note => a.1 < b.1)
      (judgableIdx m t lane w) := by
  apply List.Pairwise.filter
  have h := List.pairwise_lt_range m.notes.length
  rw [← List.enum_map_fst] at h
  exact List.pairwise_map.mp h

/-- An indexed candidate really sits at its position in `notes`. -/
theorem judgableIdx_getElem (m : BeatmapManager) (t : ℚ) (lane : ℕ)
    (w : ℚ) (x : ℕ × Note) (hx : x ∈ judgableIdx m t lane w) :
    m.notes[x.1]? = some x.2 :=
  List.mem_enum_iff_getElem?.mp (List.mem_filter.mp hx).1

/-- C1 amended: a press with no judgable candidate is a strict no-op;
otherwise the selected note minimizes `|time - currentTime|` over the
candidates with ties broken by FIRST POSITION IN ITERATION (stored) ORDER —
which coincides with earliest `time` whenever the stored note list is
sorted by time ascending, but not for unsorted lists. -/
theorem judgePress_spec (g : Game) (lane : ℕ) (t : ℚ) :
    (g.beatmap.getJudgableNotes t lane TIMING.miss = [] →
      g.judgePress lane t = g) ∧
    (g.beatmap.getJudgableNotes t lane TIMING.miss ≠ [] →
      ∃ (i : ℕ) (n : Note) (pre post : List (ℕ × Note)),
        judgableIdx g.beatmap t lane TIMING.miss = pre ++ (i, n) :: post ∧
        n ∈ g.beatmap.getJudgableNotes t lane TIMING.miss ∧
        (∀ x ∈ judgableIdx g.beatmap t lane TIMING.miss,
          |n.time - t| ≤ |x.2.time - t|) ∧
        (∀ x ∈ pre, |n.time - t| < |x.2.time - t|) ∧
        (g.judgePress lane t =
          { beatmap :=
              { g.beatmap with
                  notes := g.beatmap.notes.set i
                    { n with judged := true,
                             hit := judge (n.time - t)
                               != Judgment.CHARGEBACK } },
            scorer := (g.scorer.addHit (judge (n.time - t)) t).1 }) ∧
        (List.Sorted (fun a b : Note => a.time ≤ b.time) g.beatmap.notes →
          ∀ x ∈ post, |x.2.time - t| = |n.time - t| →
            n.time ≤ x.2.time)) := by
  constructor
  · intro h
    have hidx : judgableIdx g.beatmap t lane TIMING.miss = [] := by
      have hm := judgableIdx_map_snd g.beatmap t lane TIMING.miss
      rw [h] at hm
      exact List.map_eq_nil.mp hm
    simp only [Game.judgePress, hidx, closestAux]
  · intro h
    obtain ⟨p, l, hJ⟩ :
        ∃ p l, judgableIdx g.beatmap t lane TIMING.miss = p :: l := by
      cases hJ0 : judgableIdx g.beatmap t lane TIMING.miss with
      | nil =>
          exfalso
          apply h
          rw [← judgableIdx_map_snd, hJ0]
          rfl
      | cons p l => exact ⟨p, l, rfl⟩
    obtain ⟨r, pre, post, heq, hdecomp, hlec, hpre, hpost⟩ :=
      closestAux_spec t l p
    obtain ⟨i, n⟩ := r
    have hclosest : closestAux t none
        (judgableIdx g.beatmap t lane TIMING.miss) = some (i, n) := by
      rw [hJ]
      simp only [closestAux]
      exact heq
    have hdecomp' : judgableIdx g.beatmap t lane TIMING.miss
        = pre ++ (i, n) :: post := by
      rw [hJ, hdecomp]
    have hmemJ : (i, n) ∈ judgableIdx g.beatmap t lane TIMING.miss := by
      rw [hdecomp']
      exact List.mem_append.mpr (Or.inr (List.mem_cons_self _ _))
    refine ⟨i, n, pre, post, hdecomp', ?_, ?_, hpre, ?_, ?_⟩
    · rw [← judgableIdx_map_snd]
      exact List.mem_map.mpr ⟨(i, n), hmemJ, rfl⟩
    · intro x hx
      rw [hdecomp'] at hx
      rcases List.mem_append.mp hx with hx | hx
      · exact le_of_lt (hpre x hx)
      · rcases List.mem_cons.mp hx with hx | hx
        · exact le_of_eq (by rw [hx])
        · exact hpost x hx
    · simp only [Game.judgePress, hclosest]
    · intro hsort x hx hxeq
      have hpw := judgableIdx_pairwise g.beatmap t lane TIMING.miss
      rw [hdecomp'] at hpw
      have hlt : i < x.1 :=
        (List.pairwise_cons.mp (List.pairwise_append.mp hpw).2.1).1 x hx
      have hin : g.beatmap.notes[i]? = some n :=
        judgableIdx_getElem _ _ _ _ (i, n) hmemJ
      have hxin : g.beatmap.notes[x.1]? = some x.2 :=
        judgableIdx_getElem _ _ _ _ x (by
          rw [hdecomp']
          exact List.mem_append.mpr
            (Or.inr (List.mem_cons_of_mem _ hx)))
      obtain ⟨hi, hieq⟩ := List.getElem?_eq_some_iff.mp hin
      obtain ⟨hx1, hxeq'⟩ := List.getElem?_eq_some_iff.mp hxin
      have hrel := List.Sorted.rel_get_of_lt hsort
        (show (⟨i, hi⟩ : Fin g.beatmap.notes.length) < ⟨x.1, hx1⟩ from hlt)
      simp only [List.get_eq_getElem, hieq, hxeq'] at hrel
      exact hrel

/-- A game state with two unjudged lane-0 notes stored in time order
(times 4/5 and 6/5). -/
def sortedGame : Game :=
  ⟨{ BeatmapManager.init with notes :=
      [⟨0, 4/5, 0, NoteType.tap, 0, false, false, false⟩,
       ⟨1, 6/5, 0, NoteType.tap, 0, false, false, false⟩] }, Scorer.reset⟩

/-- C1 witness: on `sortedGame` at `currentTime = 1` the candidate list is
nonempty and the amended resolution properties hold. -/
theorem judgePress_spec_witness :
    sortedGame.beatmap.getJudgableNotes 1 0 TIMING.miss ≠ [] ∧
    (∃ (i : ℕ) (n : Note) (pre post : List (ℕ × Note)),
      judgableIdx sortedGame.beatmap 1 0 TIMING.miss = pre ++ (i, n) :: post ∧
      n ∈ sortedGame.beatmap.getJudgableNotes 1 0 TIMING.miss ∧
      (∀ x ∈ judgableIdx sortedGame.beatmap 1 0 TIMING.miss,
        |n.time - 1| ≤ |x.2.time - 1|) ∧
      (∀ x ∈ pre, |n.time - 1| < |x.2.time - 1|) ∧
      (sortedGame.judgePress 0 1 =
        { beatmap :=
            { sortedGame.beatmap with
                notes := sortedGame.beatmap.notes.set i
                  { n with judged := true,
                           hit := judge (n.time - 1)
                             != Judgment.CHARGEBACK } },
          scorer := (sortedGame.scorer.addHit (judge (n.time - 1)) 1).1 }) ∧
      (List.Sorted (fun a b : Note => a.time ≤ b.time)
          sortedGame.beatmap.notes →
        ∀ x ∈ post, |x.2.time - 1| = |n.time - 1| →
          n.time ≤ x.2.time)) := by
  have e1 : |(4:ℚ)/5 - 1| = 1/5 := by
    rw [show (4:ℚ)/5 - 1 = -(1/5) by norm_num, abs_neg,
      abs_of_nonneg (by norm_num : (0:ℚ) ≤ 1/5)]
  have d1 : decide (|(4:ℚ)/5 - (1:ℚ)| ≤ TIMING.miss) = true :=
    decide_eq_true (by rw [e1]; norm_num [TIMING])
  have hne : sortedGame.beatmap.getJudgableNotes 1 0 TIMING.miss ≠ [] := by
    intro hnil
    have h0 : (⟨0, 4/5, 0, NoteType.tap, 0, false, false, false⟩ : Note) ∈
        sortedGame.beatmap.getJudgableNotes 1 0 TIMING.miss := by
      apply (mem_getJudgableNotes _ _ _ _ _).mpr
      refine ⟨List.mem_cons_self _ _, rfl, rfl, ?_⟩
      rw [show (⟨0, 4/5, 0, NoteType.tap, 0, false, false, false⟩ :
        Note).time = (4:ℚ)/5 from rfl, e1]
      norm_num [TIMING]
    rw [hnil] at h0
    exact List.not_mem_nil _ h0
  exact ⟨hne, (judgePress_spec sortedGame 0 1).2 hne⟩

/-- C1 counterexample: in `tieGame` the two candidates deviate equally
(1/5 each side) and the earlier-time note is the SECOND stored one, yet the
press judges the first stored (later-time) note — iteration order, not
earliest time, breaks the tie on this unsorted (load never sorts) list. -/
theorem judgePress_tie_counterexample :
    ((tieGame.beatmap.getJudgableNotes 1 0 TIMING.miss).map Note.time
      = [6/5, 4/5]) ∧
    |(6:ℚ)/5 - 1| = |(4:ℚ)/5 - 1| ∧ (4:ℚ)/5 < 6/5 ∧
    ((tieGame.judgePress 0 1).beatmap.notes.map Note.judged
      = [true, false]) := by
  have e1 : |(6:ℚ)/5 - 1| = 1/5 := by
    rw [show (6:ℚ)/5 - 1 = 1/5 by norm_num,
      abs_of_nonneg (by norm_num : (0:ℚ) ≤ 1/5)]
  have e2 : |(4:ℚ)/5 - 1| = 1/5 := by
    rw [show (4:ℚ)/5 - 1 = -(1/5) by norm_num, abs_neg,
      abs_of_nonneg (by norm_num : (0:ℚ) ≤ 1/5)]
  have d1 : decide (|(6:ℚ)/5 - (1:ℚ)| ≤ TIMING.miss) = true :=
    decide_eq_true (by rw [e1]; norm_num [TIMING])
  have d2 : decide (|(4:ℚ)/5 - (1:ℚ)| ≤ TIMING.miss) = true :=
    decide_eq_true (by rw [e2]; norm_num [TIMING])
  have henum : tieGame.beatmap.notes.enum =
      [(0, ⟨0, 6/5, 0, NoteType.tap, 0, false, false, false⟩),
       (1, ⟨1, 4/5, 0, NoteType.tap, 0, false, false, false⟩)] := rfl
  have hidx : judgableIdx tieGame.beatmap 1 0 TIMING.miss =
      [(0, ⟨0, 6/5, 0, NoteType.tap, 0, false, false, false⟩),
       (1, ⟨1, 4/5, 0, NoteType.tap, 0, false, false, false⟩)] := by
    unfold judgableIdx
    rw [henum]
    simp [List.filter_cons, d1, d2]
  have hclosest : closestAux 1 none
      (judgableIdx tieGame.beatmap 1 0 TIMING.miss) =
      some (0, ⟨0, 6/5, 0, NoteType.tap, 0, false, false, false⟩) := by
    rw [hidx]
    simp only [closestAux]
    rw [if_neg]
    simp only [e1, e2]
    norm_num
  refine ⟨?_, by rw [e1, e2], by norm_num, ?_⟩
  · rw [← judgableIdx_map_snd, hidx]
    rfl
  · simp only [Game.judgePress, hclosest]
    rfl

/-! ## Claim C6: HARD synthetic notes -/

/-- Loaded canonical ids are the consecutive range starting at the
accumulator. -/
theorem loadNotes_map_id : ∀ (i : ℕ) (l : List RawNote),
    (loadNotes i l).map CanonNote.id = List.range' i l.length
  | _, [] => rfl
  | i, n :: rest => by
      simp only [loadNotes, List.map_cons, List.length_cons,
        List.range'_succ, loadNotes_map_id (i + 1) rest]

/-- The one-step unfolding of `hardExtras` on two leading notes. -/
theorem hardExtras_cons_cons (beat : ℚ) (i : ℕ) (a b : CanonNote)
    (rest : List CanonNote) :
    hardExtras beat i (a :: b :: rest) =
      (if beat * (3/2) < b.time - a.time ∧ b.time - a.time < beat * 4 then
        [⟨10000 + i, a.time + (b.time - a.time) / 2, (a.lane + 2) % 4,
          NoteType.tap, 0⟩]
      else []) ++ hardExtras beat (i + 1) (b :: rest) := rfl

/-- Synthetic ids are bounded below by `10000 +` the pair index. -/
theorem hardExtras_id_ge (beat : ℚ) : ∀ (i : ℕ) (l : List CanonNote),
    ∀ x ∈ hardExtras beat i l, 10000 + i ≤ x.id
  | i, [] => by intro x hx; simp [hardExtras] at hx
  | i, [a] => by intro x hx; simp [hardExtras] at hx
  | i, a :: b :: rest => by
      intro x hx
      simp only [hardExtras] at hx
      rcases List.mem_append.mp hx with hx | hx
      · by_cases h : beat * (3/2) < b.time - a.time ∧
            b.time - a.time < beat * 4
        · rw [if_pos h] at hx
          rw [List.mem_singleton.mp hx]
        · rw [if_neg h] at hx
          exact absurd hx (List.not_mem_nil x)
      · have hrec := hardExtras_id_ge beat (i + 1) (b :: rest) x hx
        omega

/-- One synthetic note per qualifying adjacent pair: the extras count equals
the number of adjacent pairs with gap strictly between 1.5 and 4 beats. -/
theorem hardExtras_length (beat : ℚ) : ∀ (i : ℕ) (l : List CanonNote),
    (hardExtras beat i l).length =
      (l.zip l.tail).countP
        (fun p => decide (beat * (3/2) < p.2.time - p.1.time ∧
          p.2.time - p.1.time < beat * 4))
  | _, [] => rfl
  | _, [a] => rfl
  | i, a :: b :: rest => by
      simp only [hardExtras, List.length_append,
        hardExtras_length beat (i + 1) (b :: rest), List.tail_cons,
        List.zip_cons_cons, List.countP_cons]
      by_cases h : beat * (3/2) < b.time - a.time ∧ b.time - a.time < beat * 4
      · rw [if_pos h]
        simp [h]
        omega
      · rw [if_neg h]
        simp [h]

/-- Every synthetic note lies at the midpoint of a qualifying adjacent pair,
on lane `(firstLane + 2) mod 4`, with a tap type and an id of at least
10000. -/
theorem hardExtras_mem (beat : ℚ) : ∀ (i : ℕ) (l : List CanonNote),
    ∀ x ∈ hardExtras beat i l, ∃ p ∈ l.zip l.tail,
      (beat * (3/2) < p.2.time - p.1.time ∧
        p.2.time - p.1.time < beat * 4) ∧
      x.time = (p.1.time + p.2.time) / 2 ∧
      x.lane = (p.1.lane + 2) % 4 ∧
      x.type = NoteType.tap ∧ x.duration = 0 ∧ 10000 ≤ x.id
  | i, [] => by intro x hx; simp [hardExtras] at hx
  | i, [a] => by intro x hx; simp [hardExtras] at hx
  | i, a :: b :: rest => by
      intro x hx
      simp only [hardExtras] at hx
      rcases List.mem_append.mp hx with hx | hx
      · by_cases h : beat * (3/2) < b.time - a.time ∧
            b.time - a.time < beat * 4
        · rw [if_pos h] at hx
          rw [List.mem_singleton.mp hx]
          refine ⟨(a, b), ?_, h, by ring, rfl, rfl, rfl,
            Nat.le_add_right 10000 i⟩
          simp only [List.tail_cons, List.zip_cons_cons]
          exact List.mem_cons_self _ _
        · rw [if_neg h] at hx
          exact absurd hx (List.not_mem_nil x)
      · obtain ⟨p, hp, hrest⟩ := hardExtras_mem beat (i + 1) (b :: rest) x hx
        refine ⟨p, ?_, hrest⟩
        simp only [List.tail_cons, List.zip_cons_cons]
        exact List.mem_cons_of_mem _ hp

/-- The HARD active list is sorted by time. -/
theorem applyDifficulty_hard_sorted (m : BeatmapManager) :
    List.Sorted (fun a b : Note => a.time ≤ b.time)
      (m.applyDifficulty "HARD").notes := by
  have hnotes : (m.applyDifficulty "HARD").notes =
      ((m.allNotes ++ hardExtras (60 / m.bpm) 0 m.allNotes).mergeSort
        canonTimeLE).map (CanonNote.withOffset m.offset) := by
    have h1 : ("HARD" : String) ≠ "EASY" := by decide
    simp only [BeatmapManager.applyDifficulty, if_neg h1, if_pos rfl]
    simp
  rw [hnotes]
  exact List.Pairwise.map _
    (fun a b hab => by
      simpa only [CanonNote.withOffset] using add_le_add_right hab m.offset)
    (sorted_mergeSort_canonTimeLE _)

/-- C6 amended: `applyDifficulty('HARD')` inserts exactly one synthetic tap
per adjacent canonical pair whose gap is strictly between 1.5 and 4 beats,
at the pair's midpoint on lane `(firstLane + 2) mod 4`; the active list is
re-sorted by time ascending; and synthetic ids (`10000 +` pair index) are
disjoint from the load-assigned canonical ids PROVIDED the canonical map
has at most 10000 notes. -/
theorem applyDifficulty_hard_spec (m0 : BeatmapManager) (data : RawBeatmap)
    (beat : ℚ) (hN : data.notes.length ≤ 10000) :
    ((hardExtras beat 0 (m0.load data).allNotes).length =
      (((m0.load data).allNotes.zip (m0.load data).allNotes.tail).countP
        (fun p => decide (beat * (3/2) < p.2.time - p.1.time ∧
          p.2.time - p.1.time < beat * 4)))) ∧
    (∀ x ∈ hardExtras beat 0 (m0.load data).allNotes,
      ∃ p ∈ (m0.load data).allNotes.zip (m0.load data).allNotes.tail,
        (beat * (3/2) < p.2.time - p.1.time ∧
          p.2.time - p.1.time < beat * 4) ∧
        x.time = (p.1.time + p.2.time) / 2 ∧
        x.lane = (p.1.lane + 2) % 4 ∧
        x.type = NoteType.tap ∧ x.duration = 0 ∧ 10000 ≤ x.id) ∧
    List.Sorted (fun a b : Note => a.time ≤ b.time)
      ((m0.load data).applyDifficulty "HARD").notes ∧
    List.Disjoint ((m0.load data).allNotes.map CanonNote.id)
      ((hardExtras beat 0 (m0.load data).allNotes).map CanonNote.id) := by
  refine ⟨hardExtras_length beat 0 _, hardExtras_mem beat 0 _,
    applyDifficulty_hard_sorted _, ?_⟩
  intro a ha hb
  have hids : (m0.load data).allNotes.map CanonNote.id =
      List.range' 0 data.notes.length := loadNotes_map_id 0 data.notes
  rw [hids] at ha
  obtain ⟨j, hj, haj⟩ := List.mem_range'.mp ha
  obtain ⟨x, hx, hxa⟩ := List.mem_map.mp hb
  have hge := hardExtras_id_ge beat 0 _ x hx
  omega

/-- C6 witness: the small three-note map is within the id-safe size and its
synthetic ids are disjoint from its canonical ids. -/
theorem applyDifficulty_hard_spec_witness :
    smallRaw.notes.length ≤ 10000 ∧
    List.Disjoint
      ((BeatmapManager.init.load smallRaw).allNotes.map CanonNote.id)
      ((hardExtras 1 0 (BeatmapManager.init.load smallRaw).allNotes).map
        CanonNote.id) :=
  ⟨by decide,
   (applyDifficulty_hard_spec BeatmapManager.init smallRaw 1
     (by decide)).2.2.2⟩

/-- C6 counterexample: load a 10001-note beatmap at 120 BPM whose first
pair's gap (1 s) qualifies for insertion — canonical id 10000 (the last
note) collides with the first synthetic id 10000, and the HARD active list
holds two notes with id 10000. -/
theorem hard_id_collision :
    10000 ∈ hugeM.allNotes.map CanonNote.id ∧
    10000 ∈ (hardExtras (60 / hugeM.bpm) 0 hugeM.allNotes).map
      CanonNote.id ∧
    2 ≤ ((hugeM.applyDifficulty "HARD").notes.countP
      (fun n => n.id == 10000)) := by
  have hlen : hugeRaw.notes.length = 10001 := by
    show ((⟨0, 0, none, none⟩ : RawNote) :: ⟨1, 0, none, none⟩ ::
      List.replicate 9999 ⟨100, 0, none, none⟩).length = 10001
    rw [List.length_cons, List.length_cons, List.length_replicate]
  have hca : 10000 ∈ hugeM.allNotes.map CanonNote.id := by
    have h : hugeM.allNotes = loadNotes 0 hugeRaw.notes := rfl
    rw [h, loadNotes_map_id, hlen]
    exact List.mem_range'.mpr ⟨10000, by norm_num, by norm_num⟩
  have hbpm : hugeM.bpm = 120 := rfl
  have hcond : (60 : ℚ) / hugeM.bpm * (3/2) <
      (⟨1, 1, 0, NoteType.tap, 0⟩ : CanonNote).time -
        (⟨0, 0, 0, NoteType.tap, 0⟩ : CanonNote).time ∧
      (⟨1, 1, 0, NoteType.tap, 0⟩ : CanonNote).time -
        (⟨0, 0, 0, NoteType.tap, 0⟩ : CanonNote).time <
        (60 : ℚ) / hugeM.bpm * 4 := by
    rw [hbpm]
    norm_num
  have h2 : hugeM.allNotes = ⟨0, 0, 0, NoteType.tap, 0⟩ ::
      ⟨1, 1, 0, NoteType.tap, 0⟩ ::
      loadNotes 2 (List.replicate 9999 ⟨100, 0, none, none⟩) := rfl
  have hce : 10000 ∈ (hardExtras (60 / hugeM.bpm) 0 hugeM.allNotes).map
      CanonNote.id := by
    apply List.mem_map.mpr
    refine ⟨⟨10000 + 0, (⟨0, 0, 0, NoteType.tap, 0⟩ : CanonNote).time +
      ((⟨1, 1, 0, NoteType.tap, 0⟩ : CanonNote).time -
        (⟨0, 0, 0, NoteType.tap, 0⟩ : CanonNote).time) / 2,
      ((⟨0, 0, 0, NoteType.tap, 0⟩ : CanonNote).lane + 2) % 4,
      NoteType.tap, 0⟩, ?_, rfl⟩
    rw [h2, hardExtras_cons_cons, if_pos hcond]
    exact List.mem_append.mpr (Or.inl (List.mem_singleton.mpr rfl))
  refine ⟨hca, hce, ?_⟩
  have hnotes : (hugeM.applyDifficulty "HARD").notes =
      ((hugeM.allNotes ++ hardExtras (60 / hugeM.bpm) 0
        hugeM.allNotes).mergeSort canonTimeLE).map
        (CanonNote.withOffset hugeM.offset) := by
    have h1 : ("HARD" : String) ≠ "EASY" := by decide
    simp only [BeatmapManager.applyDifficulty, if_neg h1, if_pos rfl]
    simp
  rw [hnotes, List.countP_map]
  have hperm := List.mergeSort_perm
    (hugeM.allNotes ++ hardExtras (60 / hugeM.bpm) 0 hugeM.allNotes)
    canonTimeLE
  rw [hperm.countP_eq, List.countP_append]
  obtain ⟨c1, hc1, hc1id⟩ := List.mem_map.mp hca
  obtain ⟨c2, hc2, hc2id⟩ := List.mem_map.mp hce
  have hp1 : 0 < hugeM.allNotes.countP
      ((fun n => n.id == 10000) ∘ CanonNote.withOffset hugeM.offset) := by
    apply List.countP_pos_iff.mpr
    exact ⟨c1, hc1, by simp [CanonNote.withOffset, hc1id]⟩
  have hp2 : 0 < (hardExtras (60 / hugeM.bpm) 0 hugeM.allNotes).countP
      ((fun n => n.id == 10000) ∘ CanonNote.withOffset hugeM.offset) := by
    apply List.countP_pos_iff.mpr
    exact ⟨c2, hc2, by simp [CanonNote.withOffset, hc2id]⟩
  omega

end Finpop
